import Mathlib

/-!
Verification development for a YouTube Q&A backend (FastAPI, `backend/main.py`).

Strings are modelled as lists of characters (`Str`).  External services
(transcript API, embedding model, vector store, LLM chain) are modelled as
function parameters; the endpoints are pure state-passing functions on the
session cache.  The text chunker is the behaviour of the library splitter the
code configures with `separator="\n"`, `chunk_size=1000`, `chunk_overlap=200`,
`length_function=len` (split on the separator, greedily re-merge the pieces,
keeping a bounded-overlap tail when a chunk is flushed).
-/

set_option maxRecDepth 8192

namespace YTQA

/-- Python strings, modelled as lists of characters. -/
abbrev Str := List Char

/-- The character class `[a-zA-Z0-9_-]` used by all three capture groups in
`get_video_id_from_url`. -/
def isIdChar (c : Char) : Bool :=
  ('a' ≤ c && c ≤ 'z') || ('A' ≤ c && c ≤ 'Z') || ('0' ≤ c && c ≤ '9') || c = '_' || c = '-'

/-- The greedy `[a-zA-Z0-9_-]+` capture: the maximal run of identifier
characters at the front of the string. -/
def takeIdRun : Str → Str
  | [] => []
  | c :: cs => if isIdChar c then c :: takeIdRun cs else []

/-- Does the literal part of a pattern match at the front of the string? -/
def litMatch : Str → Str → Bool
  | [], _ => true
  | _ :: _, [] => false
  | a :: as, b :: bs => a = b && litMatch as bs

/-- `re.search` for a pattern of shape `lit([a-zA-Z0-9_-]+)`: find the
leftmost position where the literal occurs immediately followed by at least
one identifier character, and return the greedy capture group there. -/
def searchPat (lit : Str) : Str → Option Str
  | [] => none
  | c :: rest =>
    if litMatch lit (c :: rest) then
      match takeIdRun ((c :: rest).drop lit.length) with
      | [] => searchPat lit rest
      | g :: gs => some (g :: gs)
    else searchPat lit rest

/-- Literal part of the first pattern, `watch\?v=([a-zA-Z0-9_-]+)`. -/
def watchPat : Str := "watch?v=".toList

/-- Literal part of the second pattern, `youtu\.be/([a-zA-Z0-9_-]+)`. -/
def youtuPat : Str := "youtu.be/".toList

/-- Literal part of the third pattern, `embed/([a-zA-Z0-9_-]+)`. -/
def embedPat : Str := "embed/".toList

/-- `get_video_id_from_url`: try the three patterns in order, return the first
capture, `None` when none matches. -/
def get_video_id_from_url (url : Str) : Option Str :=
  match searchPat watchPat url with
  | some g => some g
  | none =>
    match searchPat youtuPat url with
    | some g => some g
    | none => searchPat embedPat url

/-- A pattern `lit([a-zA-Z0-9_-]+)` matches at position `i` of `s`: the
literal occurs there, immediately followed by at least one identifier
character. -/
def patHitsAt (lit s : Str) (i : Nat) : Bool :=
  litMatch lit (s.drop i) && !(takeIdRun ((s.drop i).drop lit.length)).isEmpty

/-- One item of the list returned by the transcript API; the code reads its
`.text` attribute. -/
structure TranscriptSegment where
  text : Str

/-- `get_transcript_from_youtube`: call the external API (modelled as
`fetchApi`, whose `Except.error` case stands for a raised exception); on
success join the segment texts with single spaces, on any exception return
`None`. -/
def get_transcript_from_youtube
    (fetchApi : Str → Except String (List TranscriptSegment))
    (video_id : Str) : Option Str :=
  match fetchApi video_id with
  | Except.ok transcript_list =>
      some (List.intercalate [' '] (transcript_list.map TranscriptSegment.text))
  | Except.error _ => none

/-! ### The text splitter

`create_vector_store` runs `CharacterTextSplitter(separator="\n",
chunk_size=1000, chunk_overlap=200, length_function=len).split_text(text)`.
With `keep_separator=False` that library code splits the text on the literal
separator, drops empty pieces, and greedily re-merges the pieces into chunks
(rejoined with the separator, whitespace-stripped); when adding a piece would
push the running total past `chunk_size` the current chunk is flushed and
leading pieces are popped until the retained tail total is at most
`chunk_overlap` (and small enough to accommodate the new piece).  The running
`total` of the library equals the joined length of `current_doc` at all
times, so it is recomputed here (`totalOf`) instead of threaded. -/

/-- `text.split("\n")` on character lists. -/
def splitNl : Str → List Str
  | [] => [[]]
  | c :: cs =>
    if c = '\n' then [] :: splitNl cs
    else
      match splitNl cs with
      | [] => [[c]]
      | l :: ls => (c :: l) :: ls

/-- `"\n".join(docs)` on character lists. -/
def joinSep : List Str → Str
  | [] => []
  | [s] => s
  | s :: t :: rest => s ++ '\n' :: joinSep (t :: rest)

/-- The running `total` of the merge loop: length of the separator-join of
the pending pieces. -/
def totalOf (l : List Str) : Nat := (joinSep l).length

/-- Python `str.strip`'s whitespace test (ASCII part). -/
def isWs (c : Char) : Bool := c = ' ' || c = '\t' || c = '\n' || c = '\r'

/-- Python `str.strip()`. -/
def stripWs (s : Str) : Str :=
  ((s.dropWhile isWs).reverse.dropWhile isWs).reverse

/-- `_join_docs`: join with the separator, strip, and drop the chunk when the
result is empty. -/
def joinDocs (docs : List Str) : Option Str :=
  if stripWs (joinSep docs) = [] then none else some (stripWs (joinSep docs))

/-- The pop loop run after flushing a chunk: drop leading pieces while the
retained total exceeds the 200-character overlap or cannot accommodate the
incoming piece of length `dlen` within the 1000-character chunk size. -/
def popWhile (dlen : Nat) : List Str → List Str
  | [] => []
  | s :: rest =>
    if totalOf (s :: rest) > 200
        ∨ (totalOf (s :: rest) + dlen + (if (s :: rest).length > 0 then 1 else 0) > 1000
            ∧ totalOf (s :: rest) > 0) then
      popWhile dlen rest
    else s :: rest

/-- One iteration of `_merge_splits`' main loop: state is (finished chunks,
pending pieces); `d` is the next piece. -/
def mergeStep (st : List Str × List Str) (d : Str) : List Str × List Str :=
  if totalOf st.2 + d.length + (if st.2.length > 0 then 1 else 0) > 1000 then
    (match joinDocs st.2 with
      | some doc => st.1 ++ [doc]
      | none => st.1,
     popWhile d.length st.2 ++ [d])
  else
    (st.1, st.2 ++ [d])

/-- `split_text` of the configured splitter: split on newlines, drop empty
pieces, merge greedily, and append the final pending chunk. -/
def split_text (text : Str) : List Str :=
  match joinDocs (((splitNl text).filter (fun s => !s.isEmpty)).foldl mergeStep ([], [])).2 with
  | some doc =>
      (((splitNl text).filter (fun s => !s.isEmpty)).foldl mergeStep ([], [])).1 ++ [doc]
  | none => (((splitNl text).filter (fun s => !s.isEmpty)).foldl mergeStep ([], [])).1

/-! ### The endpoints -/

/-- A value of the session cache: the cached Q&A chain and the chat history,
an ordered list of (question, answer) pairs. -/
structure Session (Chain : Type) where
  qa_chain : Chain
  chat_history : List (Str × Str)

/-- The global `session_cache` dict, keyed by video id. -/
abbrev Cache (Chain : Type) := List (Str × Session Chain)

/-- `video_id in session_cache` / `session_cache[video_id]`. -/
def cacheGet {Chain : Type} : Cache Chain → Str → Option (Session Chain)
  | [], _ => none
  | (k, v) :: rest, key => if k = key then some v else cacheGet rest key

/-- `session_cache[video_id] = value` (update in place, or append a new
binding). -/
def cachePut {Chain : Type} : Cache Chain → Str → Session Chain → Cache Chain
  | [], key, v => [(key, v)]
  | (k, w) :: rest, key, v =>
    if k = key then (k, v) :: rest else (k, w) :: cachePut rest key v

/-- An `HTTPException` raised by an endpoint. -/
structure HTTPError where
  status : Nat
  detail : String
deriving DecidableEq

/-- Body of a successful `/process-video` response. -/
structure ProcessResponse where
  video_id : Str
  message : String
deriving DecidableEq

/-- The `/process-video` endpoint.  External steps are parameters:
`fetchApi` is the transcript service used by `get_transcript_from_youtube`;
`create_vector_store` and `create_qa_chain` return `none` for the source's
caught-exception `None` results.  Returns the response or error, and the
session cache after the call.  The `= []` tests embed Python's falsiness
tests (`if not video_id`, `if not transcript`). -/
def process_video {VS Chain : Type}
    (fetchApi : Str → Except String (List TranscriptSegment))
    (create_vector_store : Str → Option VS)
    (create_qa_chain : VS → Option Chain)
    (cache : Cache Chain) (video_url : Str) :
    Except HTTPError ProcessResponse × Cache Chain :=
  match get_video_id_from_url video_url with
  | none => (Except.error ⟨400, "Invalid YouTube URL"⟩, cache)
  | some video_id =>
    if video_id = [] then (Except.error ⟨400, "Invalid YouTube URL"⟩, cache)
    else if (cacheGet cache video_id).isSome then
      (Except.ok ⟨video_id, "Video already processed"⟩, cache)
    else
      match get_transcript_from_youtube fetchApi video_id with
      | none => (Except.error ⟨404, "Could not fetch transcript"⟩, cache)
      | some transcript =>
        if transcript = [] then (Except.error ⟨404, "Could not fetch transcript"⟩, cache)
        else
          match create_vector_store transcript with
          | none => (Except.error ⟨500, "Could not create vector store"⟩, cache)
          | some vector_store =>
            match create_qa_chain vector_store with
            | none => (Except.error ⟨500, "Could not create Q&A chain"⟩, cache)
            | some qa_chain =>
              (Except.ok ⟨video_id, "Video processed successfully"⟩,
                cachePut cache video_id ⟨qa_chain, []⟩)

/-- The `/ask-question` endpoint.  `invoke` models calling the cached chain
with the question and current history; its `Except.error` case stands for a
raised exception.  On success the (question, answer) pair is appended to the
session's chat history. -/
def ask_question {Chain : Type}
    (invoke : Chain → Str → List (Str × Str) → Except String Str)
    (cache : Cache Chain) (video_id question : Str) :
    Except HTTPError Str × Cache Chain :=
  match cacheGet cache video_id with
  | none => (Except.error ⟨404, "Video not processed. Call /process-video first."⟩, cache)
  | some session =>
    match invoke session.qa_chain question session.chat_history with
    | Except.error e => (Except.error ⟨500, "An error occurred: " ++ e⟩, cache)
    | Except.ok answer =>
      (Except.ok answer,
        cachePut cache video_id ⟨session.qa_chain, session.chat_history ++ [(question, answer)]⟩)

/-! ### Concrete fixtures used by the witnesses -/

/-- A transcript service that always succeeds with two segments. -/
def wFetchOk : Str → Except String (List TranscriptSegment) :=
  fun _ => Except.ok [⟨"hello".toList⟩, ⟨"world".toList⟩]

/-- A transcript service that always raises. -/
def wFetchErr : Str → Except String (List TranscriptSegment) :=
  fun _ => Except.error "no captions"

/-- A transcript service that succeeds with no segments. -/
def wFetchEmpty : Str → Except String (List TranscriptSegment) :=
  fun _ => Except.ok []

/-- A vector-store builder that always succeeds (vector stores are opaque). -/
def wCvs : Str → Option Unit := fun _ => some ()

/-- A chain builder that always succeeds (chains are opaque). -/
def wCqc : Unit → Option Unit := fun _ => some ()

/-- A chain invocation that echoes the question as the answer. -/
def wInvoke : Unit → Str → List (Str × Str) → Except String Str :=
  fun _ q _ => Except.ok q

/-- A chain invocation that always raises. -/
def wInvokeErr : Unit → Str → List (Str × Str) → Except String Str :=
  fun _ _ _ => Except.error "boom"

/-- A transcript with no newline and 1001 characters. -/
def exNoNl1001 : Str := List.replicate 1001 'a'

/-- A 600-character newline-free line. -/
def exLineA : Str := List.replicate 600 'a'

/-- Another 600-character newline-free line. -/
def exLineB : Str := List.replicate 600 'b'

/-! ### Lemmas about the URL parser -/

theorem takeIdRun_mem : ∀ (s : Str), ∀ c ∈ takeIdRun s, isIdChar c = true := by
  intro s
  induction s with
  | nil => intro c hc; simp [takeIdRun] at hc
  | cons a as ih =>
    intro c hc
    unfold takeIdRun at hc
    by_cases ha : isIdChar a = true
    · rw [if_pos ha] at hc
      rcases List.mem_cons.mp hc with h | h
      · exact h ▸ ha
      · exact ih c h
    · rw [if_neg ha] at hc
      exact absurd hc (List.not_mem_nil c)

theorem takeIdRun_of_all (id : Str) (h : ∀ c ∈ id, isIdChar c = true) :
    takeIdRun id = id := by
  induction id with
  | nil => rfl
  | cons a as ih =>
    have ha : isIdChar a = true := h a (List.mem_cons_self a as)
    simp [takeIdRun, ha]
    exact ih fun c hc => h c (List.mem_cons_of_mem a hc)

theorem litMatch_append (l t : Str) : litMatch l (l ++ t) = true := by
  induction l with
  | nil => rfl
  | cons a as ih => simp [litMatch, ih]

theorem litMatch_exists {l s : Str} (h : litMatch l s = true) : ∃ t, s = l ++ t := by
  induction l generalizing s with
  | nil => exact ⟨s, rfl⟩
  | cons a as ih =>
    cases s with
    | nil => simp [litMatch] at h
    | cons b bs =>
      simp only [litMatch, Bool.and_eq_true, decide_eq_true_eq] at h
      obtain ⟨t, ht⟩ := ih h.2
      exact ⟨t, by simp [h.1, ht]⟩

theorem mem_of_litMatch {l s : Str} (h : litMatch l s = true) :
    ∀ c ∈ l, c ∈ s := by
  obtain ⟨t, rfl⟩ := litMatch_exists h
  intro c hc
  exact List.mem_append_left t hc

theorem searchPat_cons_neg {lit : Str} {c : Char} {rest : Str}
    (h : litMatch lit (c :: rest) = false) :
    searchPat lit (c :: rest) = searchPat lit rest := by
  conv_lhs => unfold searchPat
  rw [h]
  simp

theorem searchPat_cons_skip {lit : Str} {c : Char} {rest : Str}
    (h : litMatch lit (c :: rest) = true)
    (hg : takeIdRun ((c :: rest).drop lit.length) = []) :
    searchPat lit (c :: rest) = searchPat lit rest := by
  conv_lhs => unfold searchPat
  rw [h, hg]
  simp

theorem searchPat_cons_hit {lit : Str} {c : Char} {rest : Str} {a : Char} {as : Str}
    (h : litMatch lit (c :: rest) = true)
    (hg : takeIdRun ((c :: rest).drop lit.length) = a :: as) :
    searchPat lit (c :: rest) = some (a :: as) := by
  unfold searchPat
  rw [h, hg]
  simp

theorem searchPat_none_iff (lit s : Str) :
    searchPat lit s = none ↔ ∀ i, patHitsAt lit s i = false := by
  induction s with
  | nil =>
    simp only [searchPat, true_iff]
    intro i
    simp [patHitsAt, takeIdRun]
  | cons c rest ih =>
    have hshift : ∀ j, patHitsAt lit (c :: rest) (j + 1) = patHitsAt lit rest j := by
      intro j
      unfold patHitsAt
      rw [List.drop_succ_cons]
    cases hlm : litMatch lit (c :: rest) with
    | false =>
      rw [searchPat_cons_neg hlm, ih]
      constructor
      · intro h i
        cases i with
        | zero =>
          unfold patHitsAt
          simp [hlm]
        | succ j => rw [hshift j]; exact h j
      · intro h j
        rw [← hshift j]
        exact h (j + 1)
    | true =>
      cases hg : takeIdRun ((c :: rest).drop lit.length) with
      | nil =>
        rw [searchPat_cons_skip hlm hg, ih]
        constructor
        · intro h i
          cases i with
          | zero =>
            unfold patHitsAt
            simp [hlm, hg]
          | succ j => rw [hshift j]; exact h j
        · intro h j
          rw [← hshift j]
          exact h (j + 1)
      | cons a as =>
        rw [searchPat_cons_hit hlm hg]
        constructor
        · intro h; simp at h
        · intro h
          exfalso
          have h0 := h 0
          unfold patHitsAt at h0
          simp [hlm, hg] at h0

theorem searchPat_some {lit s g : Str} (h : searchPat lit s = some g) :
    g ≠ [] ∧ ∀ c ∈ g, isIdChar c = true := by
  induction s with
  | nil => simp [searchPat] at h
  | cons c rest ih =>
    cases hlm : litMatch lit (c :: rest) with
    | false =>
      rw [searchPat_cons_neg hlm] at h
      exact ih h
    | true =>
      cases hg : takeIdRun ((c :: rest).drop lit.length) with
      | nil =>
        rw [searchPat_cons_skip hlm hg] at h
        exact ih h
      | cons a as =>
        rw [searchPat_cons_hit hlm hg] at h
        have hga : g = a :: as := by simpa using h.symm
        subst hga
        refine ⟨by simp, fun x hx => ?_⟩
        exact takeIdRun_mem _ x (hg ▸ hx)

theorem searchPat_here {lit s : Str} (hm : litMatch lit s = true)
    (hg : takeIdRun (s.drop lit.length) ≠ []) :
    searchPat lit s = some (takeIdRun (s.drop lit.length)) := by
  cases s with
  | nil => simp [takeIdRun] at hg
  | cons c rest =>
    unfold searchPat
    rw [if_pos hm]
    cases hx : takeIdRun ((c :: rest).drop lit.length) with
    | nil => exact absurd hx hg
    | cons a as => rfl

theorem searchPat_at_head (lit id : Str) (hne : id ≠ [])
    (hid : ∀ c ∈ id, isIdChar c = true) :
    searchPat lit (lit ++ id) = some id := by
  have hdrop : (lit ++ id).drop lit.length = id := List.drop_left lit id
  have hrun : takeIdRun ((lit ++ id).drop lit.length) = id := by
    rw [hdrop]; exact takeIdRun_of_all id hid
  have := searchPat_here (litMatch_append lit id) (by rw [hrun]; exact hne)
  rw [hrun] at this
  exact this

theorem searchPat_none_of_missing {lit s : Str} (c : Char) (hcl : c ∈ lit)
    (hcs : c ∉ s) : searchPat lit s = none := by
  refine (searchPat_none_iff lit s).mpr fun i => ?_
  unfold patHitsAt
  cases hlm : litMatch lit (s.drop i) with
  | false => simp
  | true =>
    exfalso
    exact hcs (List.mem_of_mem_drop (mem_of_litMatch hlm c hcl))

theorem patHitsAt_of_nil_drop (lit s : Str) (i : Nat) (h : s.drop i = []) :
    patHitsAt lit s i = false := by
  unfold patHitsAt
  rw [h]
  cases lit <;> simp [takeIdRun, litMatch]

theorem patHitsAt_all (lit s : Str) (h : ∀ i < s.length, patHitsAt lit s i = false) :
    ∀ i, patHitsAt lit s i = false := by
  intro i
  by_cases hi : i < s.length
  · exact h i hi
  · exact patHitsAt_of_nil_drop lit s i (List.drop_eq_nil_of_le (Nat.le_of_not_lt hi))

/-- Any id extracted by `get_video_id_from_url` is a nonempty run of
identifier characters (helper shared by the endpoint proofs). -/
theorem getVideoId_wf {url g : Str} (h : get_video_id_from_url url = some g) :
    g ≠ [] ∧ ∀ c ∈ g, isIdChar c = true := by
  unfold get_video_id_from_url at h
  cases h1 : searchPat watchPat url with
  | some g1 => rw [h1] at h; exact searchPat_some (h1.trans (by simpa using h))
  | none =>
    rw [h1] at h
    cases h2 : searchPat youtuPat url with
    | some g2 => rw [h2] at h; exact searchPat_some (h2.trans (by simpa using h))
    | none => rw [h2] at h; exact searchPat_some h

/-! ### Claims about the URL parser -/

/-- C1: the URL parser tries the patterns `watch?v=`, `youtu.be/`, `embed/` in
this fixed order and returns the first captured identifier (a maximal
non-empty run of `[a-zA-Z0-9_-]`); when no pattern matches anywhere it
returns `none`; and for each of the three shapes containing identifier `ID`,
parsing returns `ID` exactly. -/
theorem C1_url_parser_contract :
    (∀ id : Str, id ≠ [] → (∀ c ∈ id, isIdChar c = true) →
      get_video_id_from_url (watchPat ++ id) = some id ∧
      get_video_id_from_url (youtuPat ++ id) = some id ∧
      get_video_id_from_url (embedPat ++ id) = some id) ∧
    (∀ url : Str,
      (∀ i, patHitsAt watchPat url i = false) →
      (∀ i, patHitsAt youtuPat url i = false) →
      (∀ i, patHitsAt embedPat url i = false) →
      get_video_id_from_url url = none) ∧
    (∀ url g : Str, searchPat watchPat url = some g →
      get_video_id_from_url url = some g) ∧
    (∀ url g : Str, searchPat watchPat url = none → searchPat youtuPat url = some g →
      get_video_id_from_url url = some g) ∧
    (∀ url g : Str, searchPat watchPat url = none → searchPat youtuPat url = none →
      searchPat embedPat url = some g → get_video_id_from_url url = some g) := by
  refine ⟨?_, ?_, ?_, ?_, ?_⟩
  · intro id hne hid
    have hw : searchPat watchPat (watchPat ++ id) = some id :=
      searchPat_at_head _ id hne hid
    have hy1 : searchPat watchPat (youtuPat ++ id) = none := by
      refine searchPat_none_of_missing '?' (by decide) ?_
      intro hmem
      rcases List.mem_append.mp hmem with h | h
      · revert h; decide
      · exact absurd (hid '?' h) (by decide)
    have hy2 : searchPat youtuPat (youtuPat ++ id) = some id :=
      searchPat_at_head _ id hne hid
    have he1 : searchPat watchPat (embedPat ++ id) = none := by
      refine searchPat_none_of_missing '?' (by decide) ?_
      intro hmem
      rcases List.mem_append.mp hmem with h | h
      · revert h; decide
      · exact absurd (hid '?' h) (by decide)
    have he2 : searchPat youtuPat (embedPat ++ id) = none := by
      refine searchPat_none_of_missing '.' (by decide) ?_
      intro hmem
      rcases List.mem_append.mp hmem with h | h
      · revert h; decide
      · exact absurd (hid '.' h) (by decide)
    have he3 : searchPat embedPat (embedPat ++ id) = some id :=
      searchPat_at_head _ id hne hid
    refine ⟨?_, ?_, ?_⟩
    · unfold get_video_id_from_url
      rw [hw]
    · unfold get_video_id_from_url
      rw [hy1, hy2]
    · unfold get_video_id_from_url
      rw [he1, he2, he3]
  · intro url h1 h2 h3
    unfold get_video_id_from_url
    rw [(searchPat_none_iff _ _).mpr h1, (searchPat_none_iff _ _).mpr h2,
      (searchPat_none_iff _ _).mpr h3]
  · intro url g h
    unfold get_video_id_from_url
    rw [h]
  · intro url g h1 h2
    unfold get_video_id_from_url
    rw [h1, h2]
  · intro url g h1 h2 h3
    unfold get_video_id_from_url
    rw [h1, h2, h3]

/-- Witness for C1 at concrete inputs. -/
theorem C1_url_parser_contract_witness :
    get_video_id_from_url (watchPat ++ "dQw4w9WgXcQ".toList) = some "dQw4w9WgXcQ".toList ∧
    get_video_id_from_url "not a url".toList = none :=
  ⟨(C1_url_parser_contract.1 "dQw4w9WgXcQ".toList (by decide) (by decide)).1,
   C1_url_parser_contract.2.1 "not a url".toList
     (patHitsAt_all _ _ (by decide)) (patHitsAt_all _ _ (by decide))
     (patHitsAt_all _ _ (by decide))⟩

/-- C10: every non-`none` result of the URL parser is a non-empty string of
ASCII letters, digits, underscores and hyphens, so the endpoint's falsiness
test on the result coincides with the no-match test. -/
theorem C10_parser_result_nonempty_idchars :
    ∀ url g : Str, get_video_id_from_url url = some g →
      g ≠ [] ∧ ∀ c ∈ g, isIdChar c = true :=
  fun _ _ h => getVideoId_wf h

/-- Witness for C10 at a concrete input. -/
theorem C10_parser_result_nonempty_idchars_witness :
    "x".toList ≠ ([] : Str) ∧ ∀ c ∈ "x".toList, isIdChar c = true :=
  C10_parser_result_nonempty_idchars "watch?v=x".toList "x".toList (by decide)

/-! ### Lemmas about the session cache -/

theorem cacheGet_cachePut_self {Chain : Type} (cache : Cache Chain) (key : Str)
    (v : Session Chain) : cacheGet (cachePut cache key v) key = some v := by
  induction cache with
  | nil => simp [cachePut, cacheGet]
  | cons p rest ih =>
    obtain ⟨k, w⟩ := p
    unfold cachePut
    by_cases hk : k = key
    · rw [if_pos hk]
      unfold cacheGet
      rw [if_pos hk]
    · rw [if_neg hk]
      unfold cacheGet
      rw [if_neg hk]
      exact ih

/-! ### Claims about the transcript fetcher -/

/-- C6: the transcript fetcher returns the segment texts joined with single
spaces when the external call succeeds, and `none` when the external call
raises; it never propagates the exception. -/
theorem C6_transcript_fetcher_never_raises :
    ∀ (fetchApi : Str → Except String (List TranscriptSegment)) (video_id : Str),
      (∀ segs, fetchApi video_id = Except.ok segs →
        get_transcript_from_youtube fetchApi video_id
          = some (List.intercalate [' '] (segs.map TranscriptSegment.text))) ∧
      (∀ e, fetchApi video_id = Except.error e →
        get_transcript_from_youtube fetchApi video_id = none) := by
  intro fetchApi video_id
  constructor
  · intro segs h
    unfold get_transcript_from_youtube
    rw [h]
  · intro e h
    unfold get_transcript_from_youtube
    rw [h]

/-- Witness for C6 at concrete services. -/
theorem C6_transcript_fetcher_never_raises_witness :
    get_transcript_from_youtube wFetchOk "abc".toList = some "hello world".toList ∧
    get_transcript_from_youtube wFetchErr "abc".toList = none := by
  constructor
  · rw [(C6_transcript_fetcher_never_raises wFetchOk "abc".toList).1
      [⟨"hello".toList⟩, ⟨"world".toList⟩] rfl]
    decide
  · exact (C6_transcript_fetcher_never_raises wFetchErr "abc".toList).2 "no captions" rfl

/-! ### Claims about the endpoints -/

/-- C2: when the parsed id is already cached, `/process-video` returns the
"already processed" response and leaves the cache untouched; the result does
not depend on the transcript, vector-store or chain services (so none of
them is consulted). -/
theorem C2_process_video_idempotent {VS Chain : Type}
    (fetchApi : Str → Except String (List TranscriptSegment))
    (create_vector_store : Str → Option VS) (create_qa_chain : VS → Option Chain)
    (cache : Cache Chain) (video_url video_id : Str)
    (hparse : get_video_id_from_url video_url = some video_id)
    (hready : (cacheGet cache video_id).isSome = true) :
    process_video fetchApi create_vector_store create_qa_chain cache video_url
      = (Except.ok ⟨video_id, "Video already processed"⟩, cache) := by
  have hne : video_id ≠ [] := (getVideoId_wf hparse).1
  simp [process_video, hparse, hne, hready]

/-- Witness for C2: a second call for a cached id, with failing services,
still answers "already processed" and preserves the cached history. -/
theorem C2_process_video_idempotent_witness :
    process_video wFetchErr wCvs wCqc
        [("abc".toList, ⟨(), [("q".toList, "a".toList)]⟩)] "watch?v=abc".toList
      = (Except.ok ⟨"abc".toList, "Video already processed"⟩,
         [("abc".toList, ⟨(), [("q".toList, "a".toList)]⟩)]) :=
  C2_process_video_idempotent wFetchErr wCvs wCqc
    [("abc".toList, ⟨(), [("q".toList, "a".toList)]⟩)] "watch?v=abc".toList "abc".toList
    (by decide) (by decide)

/-- C3: whenever `/process-video` returns an error, the session cache is
exactly the one before the call, and the error status is 400, 404 or 500. -/
theorem C3_process_video_atomic_on_error {VS Chain : Type}
    (fetchApi : Str → Except String (List TranscriptSegment))
    (create_vector_store : Str → Option VS) (create_qa_chain : VS → Option Chain)
    (cache : Cache Chain) (video_url : Str) (e : HTTPError) :
    (process_video fetchApi create_vector_store create_qa_chain cache video_url).1
        = Except.error e →
      (process_video fetchApi create_vector_store create_qa_chain cache video_url).2 = cache ∧
      (e.status = 400 ∨ e.status = 404 ∨ e.status = 500) := by
  unfold process_video
  split
  · intro herr
    have he : (⟨400, "Invalid YouTube URL"⟩ : HTTPError) = e := by simpa using herr
    exact ⟨rfl, Or.inl (he ▸ rfl)⟩
  · split
    · intro herr
      have he : (⟨400, "Invalid YouTube URL"⟩ : HTTPError) = e := by simpa using herr
      exact ⟨rfl, Or.inl (he ▸ rfl)⟩
    · split
      · intro herr
        exact absurd herr (by simp)
      · split
        · intro herr
          have he : (⟨404, "Could not fetch transcript"⟩ : HTTPError) = e := by simpa using herr
          exact ⟨rfl, Or.inr (Or.inl (he ▸ rfl))⟩
        · split
          · intro herr
            have he : (⟨404, "Could not fetch transcript"⟩ : HTTPError) = e := by
              simpa using herr
            exact ⟨rfl, Or.inr (Or.inl (he ▸ rfl))⟩
          · split
            · intro herr
              have he : (⟨500, "Could not create vector store"⟩ : HTTPError) = e := by
                simpa using herr
              exact ⟨rfl, Or.inr (Or.inr (he ▸ rfl))⟩
            · split
              · intro herr
                have he : (⟨500, "Could not create Q&A chain"⟩ : HTTPError) = e := by
                  simpa using herr
                exact ⟨rfl, Or.inr (Or.inr (he ▸ rfl))⟩
              · intro herr
                exact absurd herr (by simp)

/-- Witness for C3: an unparseable URL yields an error and the empty cache
stays empty. -/
theorem C3_process_video_atomic_on_error_witness :
    (process_video wFetchErr wCvs wCqc ([] : Cache Unit) "not a url".toList).2 = [] ∧
    ((⟨400, "Invalid YouTube URL"⟩ : HTTPError).status = 400 ∨
      (⟨400, "Invalid YouTube URL"⟩ : HTTPError).status = 404 ∨
      (⟨400, "Invalid YouTube URL"⟩ : HTTPError).status = 500) :=
  C3_process_video_atomic_on_error wFetchErr wCvs wCqc ([] : Cache Unit)
    "not a url".toList ⟨400, "Invalid YouTube URL"⟩ rfl

/-- C5: asking about an id with no cache entry fails with 404 and changes
nothing, whatever the chain invocation would do. -/
theorem C5_ask_unprocessed_404 {Chain : Type}
    (invoke : Chain → Str → List (Str × Str) → Except String Str)
    (cache : Cache Chain) (video_id question : Str)
    (habsent : cacheGet cache video_id = none) :
    ask_question invoke cache video_id question
      = (Except.error ⟨404, "Video not processed. Call /process-video first."⟩, cache) := by
  unfold ask_question
  rw [habsent]

/-- Witness for C5: asking on the empty cache. -/
theorem C5_ask_unprocessed_404_witness :
    ask_question wInvoke ([] : Cache Unit) "abc".toList "hi".toList
      = (Except.error ⟨404, "Video not processed. Call /process-video first."⟩, []) :=
  C5_ask_unprocessed_404 wInvoke ([] : Cache Unit) "abc".toList "hi".toList rfl

/-- C9: when the chain invocation raises, `/ask-question` returns 500 with
the error text embedded and the cache — in particular the session's chat
history — is unchanged. -/
theorem C9_ask_atomic_on_failure {Chain : Type}
    (invoke : Chain → Str → List (Str × Str) → Except String Str)
    (cache : Cache Chain) (video_id question : Str) (session : Session Chain) (e : String)
    (hs : cacheGet cache video_id = some session)
    (hfail : invoke session.qa_chain question session.chat_history = Except.error e) :
    ask_question invoke cache video_id question
      = (Except.error ⟨500, "An error occurred: " ++ e⟩, cache) := by
  simp [ask_question, hs, hfail]

/-- Witness for C9: a failing invocation on a cached session with history. -/
theorem C9_ask_atomic_on_failure_witness :
    ask_question wInvokeErr [("abc".toList, ⟨(), [("q".toList, "a".toList)]⟩)]
        "abc".toList "hi".toList
      = (Except.error ⟨500, "An error occurred: boom"⟩,
         [("abc".toList, ⟨(), [("q".toList, "a".toList)]⟩)]) :=
  C9_ask_atomic_on_failure wInvokeErr [("abc".toList, ⟨(), [("q".toList, "a".toList)]⟩)]
    "abc".toList "hi".toList ⟨(), [("q".toList, "a".toList)]⟩ "boom" rfl rfl

/-- C8: a transcript fetch that succeeds but joins to the empty string is
treated like a failed fetch: 404 and no cache entry (the endpoint tests the
result for falsiness). -/
theorem C8_empty_transcript_is_404 {VS Chain : Type}
    (fetchApi : Str → Except String (List TranscriptSegment))
    (create_vector_store : Str → Option VS) (create_qa_chain : VS → Option Chain)
    (cache : Cache Chain) (video_url video_id : Str) (segs : List TranscriptSegment)
    (hparse : get_video_id_from_url video_url = some video_id)
    (habsent : cacheGet cache video_id = none)
    (hok : fetchApi video_id = Except.ok segs)
    (hempty : List.intercalate [' '] (segs.map TranscriptSegment.text) = []) :
    process_video fetchApi create_vector_store create_qa_chain cache video_url
      = (Except.error ⟨404, "Could not fetch transcript"⟩, cache) := by
  have hne : video_id ≠ [] := (getVideoId_wf hparse).1
  have htr : get_transcript_from_youtube fetchApi video_id = some [] := by
    simp [get_transcript_from_youtube, hok, hempty]
  simp [process_video, hparse, hne, habsent, htr]

/-- Witness for C8: a fetch returning no segments on a fresh id. -/
theorem C8_empty_transcript_is_404_witness :
    process_video wFetchEmpty wCvs wCqc ([] : Cache Unit) "watch?v=abc".toList
      = (Except.error ⟨404, "Could not fetch transcript"⟩, []) :=
  C8_empty_transcript_is_404 wFetchEmpty wCvs wCqc ([] : Cache Unit)
    "watch?v=abc".toList "abc".toList [] (by decide) rfl rfl rfl

/-- C4: after a successful `/process-video` and two successful
`/ask-question` calls, the history grows in call order: the first call sees
the empty history, the second sees exactly `[(q1, a1)]`, and the final
history is `[(q1, a1), (q2, a2)]`. -/
theorem C4_chat_history_in_call_order {VS Chain : Type}
    (fetchApi : Str → Except String (List TranscriptSegment))
    (create_vector_store : Str → Option VS) (create_qa_chain : VS → Option Chain)
    (invoke : Chain → Str → List (Str × Str) → Except String Str)
    (cache : Cache Chain) (video_url video_id t : Str) (vs : VS) (chain : Chain)
    (q1 a1 q2 a2 : Str)
    (hparse : get_video_id_from_url video_url = some video_id)
    (habsent : cacheGet cache video_id = none)
    (htr : get_transcript_from_youtube fetchApi video_id = some t)
    (htne : t ≠ [])
    (hvs : create_vector_store t = some vs)
    (hch : create_qa_chain vs = some chain)
    (hq1 : invoke chain q1 [] = Except.ok a1)
    (hq2 : invoke chain q2 [(q1, a1)] = Except.ok a2) :
    (process_video fetchApi create_vector_store create_qa_chain cache video_url).1
        = Except.ok ⟨video_id, "Video processed successfully"⟩ ∧
    (ask_question invoke
        (process_video fetchApi create_vector_store create_qa_chain cache video_url).2
        video_id q1).1 = Except.ok a1 ∧
    cacheGet (ask_question invoke
        (process_video fetchApi create_vector_store create_qa_chain cache video_url).2
        video_id q1).2 video_id = some ⟨chain, [(q1, a1)]⟩ ∧
    (ask_question invoke (ask_question invoke
        (process_video fetchApi create_vector_store create_qa_chain cache video_url).2
        video_id q1).2 video_id q2).1 = Except.ok a2 ∧
    cacheGet (ask_question invoke (ask_question invoke
        (process_video fetchApi create_vector_store create_qa_chain cache video_url).2
        video_id q1).2 video_id q2).2 video_id
      = some ⟨chain, [(q1, a1), (q2, a2)]⟩ := by
  have hne : video_id ≠ [] := (getVideoId_wf hparse).1
  have hpv : process_video fetchApi create_vector_store create_qa_chain cache video_url
      = (Except.ok ⟨video_id, "Video processed successfully"⟩,
         cachePut cache video_id ⟨chain, []⟩) := by
    simp [process_video, hparse, hne, habsent, htr, htne, hvs, hch]
  have hget1 : cacheGet (cachePut cache video_id ⟨chain, []⟩) video_id
      = some ⟨chain, []⟩ := cacheGet_cachePut_self cache video_id _
  have hask1 : ask_question invoke (cachePut cache video_id ⟨chain, []⟩) video_id q1
      = (Except.ok a1, cachePut (cachePut cache video_id ⟨chain, []⟩) video_id
          ⟨chain, [(q1, a1)]⟩) := by
    unfold ask_question
    rw [hget1]
    simp [hq1]
  have hget2 : cacheGet (cachePut (cachePut cache video_id ⟨chain, []⟩) video_id
      ⟨chain, [(q1, a1)]⟩) video_id = some ⟨chain, [(q1, a1)]⟩ :=
    cacheGet_cachePut_self _ video_id _
  have hask2 : ask_question invoke (cachePut (cachePut cache video_id ⟨chain, []⟩) video_id
        ⟨chain, [(q1, a1)]⟩) video_id q2
      = (Except.ok a2, cachePut (cachePut (cachePut cache video_id ⟨chain, []⟩) video_id
          ⟨chain, [(q1, a1)]⟩) video_id ⟨chain, [(q1, a1), (q2, a2)]⟩) := by
    unfold ask_question
    rw [hget2]
    simp [hq2]
  rw [hpv]
  simp [hask1, hask2, cacheGet_cachePut_self]

/-- Witness for C4: a fresh video, then two questions answered by an echoing
chain. -/
theorem C4_chat_history_in_call_order_witness :
    (process_video wFetchOk wCvs wCqc ([] : Cache Unit) "watch?v=abc".toList).1
        = Except.ok ⟨"abc".toList, "Video processed successfully"⟩ ∧
    (ask_question wInvoke
        (process_video wFetchOk wCvs wCqc ([] : Cache Unit) "watch?v=abc".toList).2
        "abc".toList "one".toList).1 = Except.ok "one".toList ∧
    cacheGet (ask_question wInvoke
        (process_video wFetchOk wCvs wCqc ([] : Cache Unit) "watch?v=abc".toList).2
        "abc".toList "one".toList).2 "abc".toList
      = some ⟨(), [("one".toList, "one".toList)]⟩ ∧
    (ask_question wInvoke (ask_question wInvoke
        (process_video wFetchOk wCvs wCqc ([] : Cache Unit) "watch?v=abc".toList).2
        "abc".toList "one".toList).2 "abc".toList "two".toList).1
      = Except.ok "two".toList ∧
    cacheGet (ask_question wInvoke (ask_question wInvoke
        (process_video wFetchOk wCvs wCqc ([] : Cache Unit) "watch?v=abc".toList).2
        "abc".toList "one".toList).2 "abc".toList "two".toList).2 "abc".toList
      = some ⟨(), [("one".toList, "one".toList), ("two".toList, "two".toList)]⟩ :=
  C4_chat_history_in_call_order wFetchOk wCvs wCqc wInvoke ([] : Cache Unit)
    "watch?v=abc".toList "abc".toList "hello world".toList () ()
    "one".toList "one".toList "two".toList "two".toList
    (by decide) rfl rfl (by decide) rfl rfl rfl rfl

/-! ### Lemmas about the text splitter -/

theorem joinSep_cons_cons (s t : Str) (rest : List Str) :
    joinSep (s :: t :: rest) = s ++ '\n' :: joinSep (t :: rest) := rfl

theorem totalOf_nil : totalOf [] = 0 := rfl

theorem totalOf_single (s : Str) : totalOf [s] = s.length := rfl

theorem totalOf_cons_cons (s t : Str) (rest : List Str) :
    totalOf (s :: t :: rest) = s.length + 1 + totalOf (t :: rest) := by
  unfold totalOf
  rw [joinSep_cons_cons]
  simp [List.length_append]
  omega

theorem totalOf_append_one (l : List Str) (d : Str) :
    totalOf (l ++ [d]) = totalOf l + d.length + (if l.length > 0 then 1 else 0) := by
  induction l with
  | nil => simp [totalOf_nil, totalOf_single]
  | cons s rest ih =>
    cases rest with
    | nil =>
      rw [show ([s] ++ [d]) = [s, d] from rfl, totalOf_cons_cons, totalOf_single,
        totalOf_single]
      simp
      omega
    | cons t rest2 =>
      have h1 : (s :: t :: rest2) ++ [d] = s :: t :: (rest2 ++ [d]) := by simp
      have h2 : t :: (rest2 ++ [d]) = (t :: rest2) ++ [d] := by simp
      rw [h1, totalOf_cons_cons, h2, ih, totalOf_cons_cons]
      simp
      omega

theorem totalOf_head_le (s : Str) (rest : List Str) : s.length ≤ totalOf (s :: rest) := by
  cases rest with
  | nil => rw [totalOf_single]
  | cons t r2 => rw [totalOf_cons_cons]; omega

theorem dropWhile_length_le (p : Char → Bool) (s : Str) :
    (s.dropWhile p).length ≤ s.length := by
  induction s with
  | nil => simp [List.dropWhile]
  | cons c cs ih =>
    rw [List.dropWhile_cons]
    by_cases h : p c = true
    · rw [if_pos h]
      exact le_trans ih (by rw [List.length_cons]; omega)
    · rw [if_neg h]

theorem stripWs_length_le (s : Str) : (stripWs s).length ≤ s.length := by
  unfold stripWs
  calc (((s.dropWhile isWs).reverse.dropWhile isWs).reverse).length
      = ((s.dropWhile isWs).reverse.dropWhile isWs).length := List.length_reverse _
    _ ≤ (s.dropWhile isWs).reverse.length := dropWhile_length_le _ _
    _ = (s.dropWhile isWs).length := List.length_reverse _
    _ ≤ s.length := dropWhile_length_le _ _

theorem joinDocs_some_length {l : List Str} {doc : Str} (h : joinDocs l = some doc) :
    doc.length ≤ totalOf l := by
  unfold joinDocs at h
  split at h
  · exact absurd h (by simp)
  · have hd : doc = stripWs (joinSep l) := by
      injection h with h1
      exact h1.symm
    rw [hd]
    exact stripWs_length_le (joinSep l)

theorem popWhile_spec (dlen : Nat) (cur : List Str) (hne : ∀ x ∈ cur, x ≠ []) :
    popWhile dlen cur = [] ∨
    ((∀ x ∈ popWhile dlen cur, x ≠ []) ∧ totalOf (popWhile dlen cur) ≤ 200 ∧
      totalOf (popWhile dlen cur) + dlen + 1 ≤ 1000) := by
  induction cur with
  | nil => left; rfl
  | cons s rest ih =>
    unfold popWhile
    by_cases hc : totalOf (s :: rest) > 200
        ∨ (totalOf (s :: rest) + dlen + (if (s :: rest).length > 0 then 1 else 0) > 1000
            ∧ totalOf (s :: rest) > 0)
    · rw [if_pos hc]
      exact ih fun x hx => hne x (List.mem_cons_of_mem s hx)
    · rw [if_neg hc]
      push_neg at hc
      obtain ⟨h1, h2⟩ := hc
      have hpos : totalOf (s :: rest) > 0 := by
        have hs : s ≠ [] := hne s (List.mem_cons_self s rest)
        have hh := totalOf_head_le s rest
        have : 0 < s.length := List.length_pos.mpr hs
        omega
      have hif : (if (s :: rest).length > 0 then 1 else 0) = 1 := if_pos (by simp)
      have hB : totalOf (s :: rest) + dlen + (if (s :: rest).length > 0 then 1 else 0)
          ≤ 1000 := by
        by_contra hgt
        have := h2 (by omega)
        omega
      rw [hif] at hB
      exact Or.inr ⟨hne, by omega, by omega⟩

theorem mergeStep_invariant (st : List Str × List Str) (d : Str)
    (hd1 : d ≠ []) (hd2 : d.length ≤ 1000)
    (hdocs : ∀ c ∈ st.1, c.length ≤ 1000)
    (hcur1 : ∀ x ∈ st.2, x ≠ []) (hcur2 : totalOf st.2 ≤ 1000) :
    (∀ c ∈ (mergeStep st d).1, c.length ≤ 1000) ∧
    (∀ x ∈ (mergeStep st d).2, x ≠ []) ∧ totalOf (mergeStep st d).2 ≤ 1000 := by
  unfold mergeStep
  by_cases hov : totalOf st.2 + d.length + (if st.2.length > 0 then 1 else 0) > 1000
  · rw [if_pos hov]
    refine ⟨?_, ?_, ?_⟩
    · intro c hc
      simp only at hc
      cases hjd : joinDocs st.2 with
      | none => rw [hjd] at hc; exact hdocs c hc
      | some doc =>
        rw [hjd] at hc
        rcases List.mem_append.mp hc with h | h
        · exact hdocs c h
        · have : c = doc := by simpa using h
          subst this
          exact le_trans (joinDocs_some_length hjd) hcur2
    · intro x hx
      simp only at hx
      rcases List.mem_append.mp hx with h | h
      · rcases popWhile_spec d.length st.2 hcur1 with hp | ⟨hnn, _, _⟩
        · rw [hp] at h; exact absurd h (List.not_mem_nil x)
        · exact hnn x h
      · have : x = d := by simpa using h
        exact this ▸ hd1
    · simp only
      rw [totalOf_append_one]
      rcases popWhile_spec d.length st.2 hcur1 with hp | ⟨_, h200, hfit⟩
      · rw [hp]
        simp [totalOf_nil]
        omega
      · by_cases hpe : (popWhile d.length st.2).length > 0
        · rw [if_pos hpe]; omega
        · have hpnil : popWhile d.length st.2 = [] :=
            List.length_eq_zero.mp (by omega)
          rw [hpnil]
          simp [totalOf_nil]
          omega
  · rw [if_neg hov]
    refine ⟨hdocs, ?_, ?_⟩
    · intro x hx
      simp only at hx
      rcases List.mem_append.mp hx with h | h
      · exact hcur1 x h
      · have : x = d := by simpa using h
        exact this ▸ hd1
    · simp only
      rw [totalOf_append_one]
      omega

theorem foldl_mergeStep_invariant (splits : List Str) (st : List Str × List Str)
    (hsp : ∀ s ∈ splits, s ≠ [] ∧ s.length ≤ 1000)
    (hdocs : ∀ c ∈ st.1, c.length ≤ 1000)
    (hcur1 : ∀ x ∈ st.2, x ≠ []) (hcur2 : totalOf st.2 ≤ 1000) :
    (∀ c ∈ (splits.foldl mergeStep st).1, c.length ≤ 1000) ∧
    (∀ x ∈ (splits.foldl mergeStep st).2, x ≠ []) ∧
    totalOf (splits.foldl mergeStep st).2 ≤ 1000 := by
  induction splits generalizing st with
  | nil => exact ⟨hdocs, hcur1, hcur2⟩
  | cons d rest ih =>
    rw [List.foldl_cons]
    have hd := hsp d (List.mem_cons_self d rest)
    have hm := mergeStep_invariant st d hd.1 hd.2 hdocs hcur1 hcur2
    exact ih (mergeStep st d) (fun s hs => hsp s (List.mem_cons_of_mem d hs))
      hm.1 hm.2.1 hm.2.2

theorem splitNl_no_nl (s : Str) (h : '\n' ∉ s) : splitNl s = [s] := by
  induction s with
  | nil => rfl
  | cons c cs ih =>
    have hc : ¬(c = '\n') := fun he => h (he ▸ List.mem_cons_self c cs)
    unfold splitNl
    rw [if_neg hc, ih fun hm => h (List.mem_cons_of_mem c hm)]

theorem splitNl_one_nl (l1 l2 : Str) (h1 : '\n' ∉ l1) (h2 : '\n' ∉ l2) :
    splitNl (l1 ++ '\n' :: l2) = [l1, l2] := by
  induction l1 with
  | nil =>
    rw [List.nil_append]
    unfold splitNl
    rw [if_pos rfl, splitNl_no_nl l2 h2]
  | cons c cs ih =>
    have hc : ¬(c = '\n') := fun he => h1 (he ▸ List.mem_cons_self c cs)
    rw [List.cons_append]
    unfold splitNl
    rw [if_neg hc, ih fun hm => h1 (List.mem_cons_of_mem c hm)]

theorem dropWhile_of_none (p : Char → Bool) (s : Str) (h : ∀ c ∈ s, p c = false) :
    s.dropWhile p = s := by
  cases s with
  | nil => rfl
  | cons c cs =>
    rw [List.dropWhile_cons, h c (List.mem_cons_self c cs)]
    simp

theorem stripWs_of_none (s : Str) (h : ∀ c ∈ s, isWs c = false) : stripWs s = s := by
  unfold stripWs
  rw [dropWhile_of_none _ _ h,
    dropWhile_of_none _ _ fun c hc => h c (List.mem_reverse.mp hc)]
  exact List.reverse_reverse s

theorem joinDocs_single {s : Str} (hstrip : stripWs s = s) (hne : s ≠ []) :
    joinDocs [s] = some s := by
  unfold joinDocs
  rw [show joinSep [s] = s from rfl, hstrip, if_neg hne]

theorem joinDocs_nil : joinDocs [] = none := rfl

theorem popWhile_nil (dlen : Nat) : popWhile dlen [] = [] := rfl

theorem isEmpty_false_of_ne {s : Str} (h : s ≠ []) : s.isEmpty = false := by
  cases s with
  | nil => exact absurd rfl h
  | cons a as => rfl

theorem mergeStep_pos (docs cur : List Str) (d : Str)
    (h : totalOf cur + d.length + (if cur.length > 0 then 1 else 0) > 1000) :
    mergeStep (docs, cur) d
      = (match joinDocs cur with
         | some doc => docs ++ [doc]
         | none => docs,
         popWhile d.length cur ++ [d]) := by
  unfold mergeStep
  rw [if_pos h]

theorem mergeStep_neg (docs cur : List Str) (d : Str)
    (h : ¬(totalOf cur + d.length + (if cur.length > 0 then 1 else 0) > 1000)) :
    mergeStep (docs, cur) d = (docs, cur ++ [d]) := by
  unfold mergeStep
  rw [if_neg h]

theorem split_text_single_long (s : Str) (hnl : '\n' ∉ s) (hne : s ≠ [])
    (hstrip : stripWs s = s) (hlen : s.length > 1000) :
    split_text s = [s] := by
  have hie : s.isEmpty = false := isEmpty_false_of_ne hne
  have hfe : (splitNl s).filter (fun x => !x.isEmpty) = [s] := by
    rw [splitNl_no_nl s hnl]
    simp [List.filter, hie]
  have hcond : totalOf ([] : List Str) + s.length
      + (if ([] : List Str).length > 0 then 1 else 0) > 1000 := by
    rw [totalOf_nil]
    simp
    omega
  have hms : mergeStep ([], []) s = ([], [s]) := by
    rw [mergeStep_pos [] [] s hcond, joinDocs_nil, popWhile_nil]
    rfl
  have hfold : (((splitNl s).filter (fun x => !x.isEmpty)).foldl mergeStep ([], []))
      = ([], [s]) := by
    rw [hfe, List.foldl_cons, List.foldl_nil, hms]
  unfold split_text
  rw [hfold, joinDocs_single hstrip hne]
  rfl

theorem split_text_two_long (l1 l2 : Str)
    (hn1 : '\n' ∉ l1) (hn2 : '\n' ∉ l2) (he1 : l1 ≠ []) (he2 : l2 ≠ [])
    (hs1 : stripWs l1 = l1) (hs2 : stripWs l2 = l2)
    (hl1 : l1.length ≤ 1000) (hbig : l1.length + l2.length + 1 > 1000)
    (hov : l1.length > 200) :
    split_text (l1 ++ '\n' :: l2) = [l1, l2] := by
  have hie1 : l1.isEmpty = false := isEmpty_false_of_ne he1
  have hie2 : l2.isEmpty = false := isEmpty_false_of_ne he2
  have hfe : (splitNl (l1 ++ '\n' :: l2)).filter (fun x => !x.isEmpty) = [l1, l2] := by
    rw [splitNl_one_nl l1 l2 hn1 hn2]
    simp [List.filter, hie1, hie2]
  have hc1 : ¬(totalOf ([] : List Str) + l1.length
      + (if ([] : List Str).length > 0 then 1 else 0) > 1000) := by
    rw [totalOf_nil]
    simp
    omega
  have hm1 : mergeStep ([], []) l1 = ([], [l1]) := by
    rw [mergeStep_neg [] [] l1 hc1]
    rfl
  have hpop : popWhile l2.length [l1] = [] := by
    unfold popWhile
    rw [if_pos (Or.inl (by rw [totalOf_single]; omega))]
    rfl
  have hc2 : totalOf [l1] + l2.length + (if [l1].length > 0 then 1 else 0) > 1000 := by
    rw [totalOf_single]
    simp
    omega
  have hm2 : mergeStep ([], [l1]) l2 = ([l1], [l2]) := by
    rw [mergeStep_pos [] [l1] l2 hc2, joinDocs_single hs1 he1, hpop]
    rfl
  have hfold : (((splitNl (l1 ++ '\n' :: l2)).filter (fun x => !x.isEmpty)).foldl
      mergeStep ([], [])) = ([l1], [l2]) := by
    rw [hfe, List.foldl_cons, List.foldl_cons, List.foldl_nil, hm1, hm2]
  unfold split_text
  rw [hfold, joinDocs_single hs2 he2]
  rfl

theorem replicate_no_nl (n : Nat) (c : Char) (hc : c ≠ '\n') :
    '\n' ∉ List.replicate n c := by
  intro h
  exact hc (List.eq_of_mem_replicate h).symm

theorem replicate_strip (n : Nat) (c : Char) (hc : isWs c = false) :
    stripWs (List.replicate n c) = List.replicate n c :=
  stripWs_of_none _ fun _ hx => (List.eq_of_mem_replicate hx) ▸ hc

theorem replicate_ne_replicate (n : Nat) (hn : 0 < n) (a b : Char) (hab : a ≠ b) :
    List.replicate n a ≠ List.replicate n b := by
  cases n with
  | zero => omega
  | succ k =>
    intro h
    rw [List.replicate_succ, List.replicate_succ] at h
    injection h with h1 _
    exact hab h1

/-! ### Claims about the text splitter -/

/-- C7 counterexample: (i) a 1001-character transcript with no newline is
returned as a single chunk of 1001 > 1000 characters; (ii) two
600-character lines become two chunks sharing no 200-character overlap
(the retained overlap is empty, not 200); (iii) for `"a\n\nb"` the single
produced chunk is shorter than the text, so the chunks do not cover it. -/
theorem C7_chunker_counterexample :
    (split_text exNoNl1001 = [exNoNl1001] ∧ 1000 < exNoNl1001.length) ∧
    (split_text (exLineA ++ '\n' :: exLineB) = [exLineA, exLineB] ∧
      exLineB.take 200 ≠ exLineA.drop (exLineA.length - 200)) ∧
    (split_text "a\n\nb".toList = ["a\nb".toList] ∧
      ("a\nb".toList : Str).length < ("a\n\nb".toList : Str).length) := by
  refine ⟨⟨?_, ?_⟩, ⟨?_, ?_⟩, ?_, ?_⟩
  · exact split_text_single_long exNoNl1001
      (replicate_no_nl 1001 'a' (by decide))
      (by simp [exNoNl1001])
      (replicate_strip 1001 'a' (by decide))
      (by simp [exNoNl1001])
  · simp [exNoNl1001]
  · exact split_text_two_long exLineA exLineB
      (replicate_no_nl 600 'a' (by decide)) (replicate_no_nl 600 'b' (by decide))
      (by simp [exLineA]) (by simp [exLineB])
      (replicate_strip 600 'a' (by decide)) (replicate_strip 600 'b' (by decide))
      (by simp [exLineA]) (by simp [exLineA, exLineB]) (by simp [exLineA])
  · unfold exLineA exLineB
    rw [List.take_replicate, List.length_replicate, List.drop_replicate]
    simp only [show min 200 600 = 200 from rfl, show 600 - (600 - 200) = 200 from rfl]
    exact replicate_ne_replicate 200 (by omega) 'b' 'a' (by decide)
  · decide
  · decide

/-- C7 (amended): the chunker deterministically splits the text on newline
boundaries, drops empty segments and regroups them in order; a segment
longer than 1000 characters is emitted whole in an oversized chunk, chunks
need not cover the text exactly, and the 200-character figure only bounds
the overlap; but whenever every newline-separated segment of the text is at
most 1000 characters long, every produced chunk is at most 1000 characters
long. -/
theorem C7_chunker_bounded_when_segments_bounded (text : Str)
    (hseg : ∀ p ∈ splitNl text, p.length ≤ 1000) :
    ∀ c ∈ split_text text, c.length ≤ 1000 := by
  intro c hc
  have hsp : ∀ s ∈ (splitNl text).filter (fun x => !x.isEmpty),
      s ≠ [] ∧ s.length ≤ 1000 := by
    intro s hmem
    have hm := List.mem_filter.mp hmem
    refine ⟨?_, hseg s hm.1⟩
    intro hnil
    rw [hnil] at hm
    simp at hm
  have hinv := foldl_mergeStep_invariant ((splitNl text).filter (fun x => !x.isEmpty))
    ([], []) hsp (by simp) (by simp) (by rw [totalOf_nil]; omega)
  unfold split_text at hc
  cases hjd : joinDocs ((((splitNl text).filter (fun x => !x.isEmpty)).foldl
      mergeStep ([], []))).2 with
  | none =>
    rw [hjd] at hc
    exact hinv.1 c hc
  | some doc =>
    rw [hjd] at hc
    rcases List.mem_append.mp hc with h | h
    · exact hinv.1 c h
    · have : c = doc := by simpa using h
      subst this
      exact le_trans (joinDocs_some_length hjd) hinv.2.2

/-- Witness for the amended C7 at a concrete two-line transcript. -/
theorem C7_chunker_bounded_when_segments_bounded_witness :
    ("hello\nworld".toList : Str).length ≤ 1000 :=
  C7_chunker_bounded_when_segments_bounded "hello\nworld".toList (by decide)
    "hello\nworld".toList (by decide)

end YTQA
